import Mathlib

/-!
Verification of the Brew Station character-manager core (src/src/App.tsx):
the normalization layer, the derived-stat helpers, and the mutation
operations on characters.  JavaScript dynamic values are shallowly embedded
as the inductive type JVal below; JavaScript numbers are modelled exactly as
rationals plus the three non-finite values (NaN and the two infinities),
which is faithful for every comparison, clamp, floor, max and min the
program performs.  The nondeterministic generators (crypto.randomUUID and
generatePublicCode) are modelled by explicit string parameters; theorems
that depend on the generated public code take as hypotheses exactly the
properties the source generator guarantees (a non-empty string fixed by
trimming and upper-casing).
-/

set_option autoImplicit false
set_option maxHeartbeats 1000000

namespace BrewStation

/-- Model of a JavaScript number: exact finite values as rationals, plus
NaN and the two infinities. -/
inductive JNum where
  | fin (q : ℚ)
  | nan
  | inf
  | neginf
deriving DecidableEq, Repr

mutual
/-- Model of an arbitrary JavaScript value. -/
inductive JVal where
  | undefined
  | null
  | bool (b : Bool)
  | num (n : JNum)
  | str (s : String)
  | arr (xs : JList)
  | obj (kvs : JObj)

/-- A JavaScript array, as its own inductive so that recursion over nested
values stays structural (and hence kernel-reducible). -/
inductive JList where
  | nil
  | cons (hd : JVal) (tl : JList)

/-- A JavaScript object: an association list of string keys to values. -/
inductive JObj where
  | nil
  | cons (key : String) (val : JVal) (tl : JObj)
end

/-- Property lookup v[key]: on objects, first matching key; on every
non-object (and on a missing key) the accesses the source performs yield
undefined.  (The source only ever reads fixed data keys, never string or
array built-ins, so this is faithful for every access it performs.) -/
def objGet : JVal → String → JVal
  | .obj kvs, key => goObj kvs key
  | _, _ => .undefined
where goObj : JObj → String → JVal
  | .nil, _ => .undefined
  | .cons k v tl, key => if k = key then v else goObj tl key

/-- JavaScript nullish test: only undefined and null are nullish. -/
def jNullish : JVal → Bool
  | .undefined => true
  | .null => true
  | _ => false

/-- The JavaScript nullish-coalescing operator a ?? d. -/
def jNullishElse (v d : JVal) : JVal :=
  if jNullish v then d else v

/-- JavaScript truthiness (Boolean(v)). -/
def jsTruthy : JVal → Bool
  | .undefined => false
  | .null => false
  | .bool b => b
  | .num (.fin q) => q ≠ 0
  | .num .nan => false
  | .num .inf => true
  | .num .neginf => true
  | .str s => s ≠ ""
  | .arr _ => true
  | .obj _ => true

/-- ASCII whitespace, the whitespace the inputs at hand can contain. -/
def isWsChar (c : Char) : Bool :=
  c = ' ' || c = '\t' || c = '\n' || c = '\r'

/-- The lowercase-to-uppercase letter table. -/
def upperPairs : List (Char × Char) :=
  [('a', 'A'), ('b', 'B'), ('c', 'C'), ('d', 'D'), ('e', 'E'), ('f', 'F'),
   ('g', 'G'), ('h', 'H'), ('i', 'I'), ('j', 'J'), ('k', 'K'), ('l', 'L'),
   ('m', 'M'), ('n', 'N'), ('o', 'O'), ('p', 'P'), ('q', 'Q'), ('r', 'R'),
   ('s', 'S'), ('t', 'T'), ('u', 'U'), ('v', 'V'), ('w', 'W'), ('x', 'X'),
   ('y', 'Y'), ('z', 'Z')]

/-- ASCII upper-casing of one character (String.prototype.toUpperCase
restricted to ASCII, which covers every character class the program
manipulates). -/
def asciiUpper (c : Char) : Char :=
  ((upperPairs.find? (fun p => p.1 == c)).map Prod.snd).getD c

/-- ASCII lower-casing of one character (String.prototype.toLowerCase
restricted to ASCII). -/
def asciiLower (c : Char) : Char :=
  ((upperPairs.find? (fun p => p.2 == c)).map Prod.fst).getD c

/-- Both-ends trim on a character list. -/
def trimL (l : List Char) : List Char :=
  (((l.dropWhile (isWsChar ·)).reverse.dropWhile (isWsChar ·)).reverse)

/-- String.prototype.trim. -/
def jsTrim (s : String) : String :=
  ⟨trimL s.data⟩

/-- String.prototype.toUpperCase. -/
def jsToUpper (s : String) : String :=
  ⟨s.data.map asciiUpper⟩

/-- String.prototype.toLowerCase. -/
def jsToLower (s : String) : String :=
  ⟨s.data.map asciiLower⟩

/-- Decimal rendering of a number, String(n).  Integral values render as in
JavaScript; the rendering of non-integral values abstracts JavaScript float
formatting (no theorem below depends on those digits). -/
def jnumToString : JNum → String
  | .fin q => if q.den = 1 then toString q.num else toString q
  | .nan => "NaN"
  | .inf => "Infinity"
  | .neginf => "-Infinity"

mutual
/-- JavaScript String(v) conversion. -/
def jToString : JVal → String
  | .undefined => "undefined"
  | .null => "null"
  | .bool b => cond b "true" "false"
  | .num n => jnumToString n
  | .str s => s
  | .arr xs => jListToString xs
  | .obj _ => "[object Object]"

/-- Array.prototype.toString: elements joined with commas. -/
def jListToString : JList → String
  | .nil => ""
  | .cons x tl =>
    jElemToString x ++ (match tl with | .nil => "" | .cons _ _ => "," ++ jListToString tl)

/-- Element conversion inside Array.prototype.join: null and undefined
render as the empty string, everything else as its String(v) form. -/
def jElemToString : JVal → String
  | .undefined => ""
  | .null => ""
  | .bool b => cond b "true" "false"
  | .num n => jnumToString n
  | .str s => s
  | .arr xs => jListToString xs
  | .obj _ => "[object Object]"
end

/-- Value of a block of decimal digits. -/
def digitsVal (l : List Char) : ℕ :=
  l.foldl (fun a c => a * 10 + (c.toNat - 48)) 0

/-- Unsigned decimal-literal parse: digits, optionally with a fractional
part; an empty string or any other character fails. -/
def parseDecCore (l : List Char) : Option ℚ :=
  let ip := l.takeWhile (Char.isDigit ·)
  let rest := l.dropWhile (Char.isDigit ·)
  match rest with
  | [] => if ip.isEmpty then none else some (digitsVal ip)
  | '.' :: fp =>
    if fp.all (Char.isDigit ·) && (!ip.isEmpty || !fp.isEmpty) then
      some ((digitsVal ip : ℚ) + (digitsVal fp : ℚ) / (10 : ℚ) ^ fp.length)
    else none
  | _ => none

/-- Signed decimal-literal parse. -/
def parseSigned (l : List Char) : Option ℚ :=
  match l with
  | '-' :: r => (parseDecCore r).map (fun q => -q)
  | '+' :: r => parseDecCore r
  | r => parseDecCore r

/-- Number(s) on a string: trimmed; empty means 0; the infinity literals;
otherwise a decimal literal, else NaN.  (Hex and exponent literal forms are
abstracted away; no theorem below feeds them in.) -/
def jsStringToNumber (s : String) : JNum :=
  let t := jsTrim s
  if t = "" then .fin 0
  else if t = "Infinity" || t = "+Infinity" then .inf
  else if t = "-Infinity" then .neginf
  else
    match parseSigned t.data with
    | some q => .fin q
    | none => .nan

/-- JavaScript Number(v) coercion. -/
def jsToNumber : JVal → JNum
  | .undefined => .nan
  | .null => .fin 0
  | .bool b => .fin (cond b 1 0)
  | .num n => n
  | .str s => jsStringToNumber s
  | .arr xs => jsStringToNumber (jListToString xs)
  | .obj _ => .nan

/-- Number.isFinite(v): true only for an actual finite number, with no
coercion. -/
def jIsFiniteNum : JVal → Bool
  | .num (.fin _) => true
  | _ => false

/-- clamp from the source: a non-finite input collapses to the lower bound,
a finite input is clamped between lo and hi via Math.max and Math.min. -/
def clamp (n : JNum) (lo hi : ℚ) : ℚ :=
  match n with
  | .fin q => max lo (min hi q)
  | _ => lo

/-- modFromScore from the source: Math.floor((score - 10) / 2). -/
def modFromScore (score : ℚ) : ℚ :=
  (⌊(score - 10) / 2⌋ : ℤ)

/-- The six spell MP tiers. -/
inductive MpTier where
  | none
  | low
  | med
  | high
  | veryHigh
  | extreme
deriving DecidableEq, Repr

/-- The display label of a tier, as listed in MP_TIERS. -/
def MpTier.label : MpTier → String
  | .none => "None"
  | .low => "Low"
  | .med => "Med"
  | .high => "High"
  | .veryHigh => "Very High"
  | .extreme => "Extreme"

/-- MP_TIERS, in source order. -/
def MP_TIERS : List MpTier :=
  [.none, .low, .med, .high, .veryHigh, .extreme]

/-- MP_TIER_TO_COST. -/
def MP_TIER_TO_COST : MpTier → ℚ
  | .none => 0
  | .low => 25
  | .med => 50
  | .high => 100
  | .veryHigh => 150
  | .extreme => 200

/-- normalizeMpTier: case-insensitive match of the trimmed input against
the tier labels, defaulting to None. -/
def normalizeMpTier (v : JVal) : MpTier :=
  let raw := jsToLower (jsTrim (jToString (jNullishElse v (.str ""))))
  (MP_TIERS.find? (fun t => jsToLower t.label == raw)).getD .none

/-- The five preset races. -/
inductive Race where
  | human
  | elf
  | automaton
  | daemon
  | scalekin
deriving DecidableEq, Repr

/-- The display name of a preset race, as listed in RACES. -/
def Race.label : Race → String
  | .human => "Human"
  | .elf => "Elf"
  | .automaton => "Automaton"
  | .daemon => "Daemon"
  | .scalekin => "Scalekin"

/-- RACES, in source order. -/
def RACES : List Race :=
  [.human, .elf, .automaton, .daemon, .scalekin]

/-- The four ranks. -/
inductive Rank where
  | bronze
  | silver
  | gold
  | diamond
deriving DecidableEq, Repr

/-- The display name of a rank, as listed in RANKS. -/
def Rank.label : Rank → String
  | .bronze => "Bronze"
  | .silver => "Silver"
  | .gold => "Gold"
  | .diamond => "Diamond"

/-- RANKS, in source order. -/
def RANKS : List Rank :=
  [.bronze, .silver, .gold, .diamond]

/-- Per-race base stats (RACE_STATS rows). -/
structure RaceStats where
  hp : ℚ
  mp : ℚ
  baseAc : ℚ
deriving DecidableEq, Repr

/-- RACE_STATS / getRaceStats.  The source keys the table by the race name
string but only queries it with a normalized preset race (or the literal
"Human"), so the lookup with its Human fallback is total on Race. -/
def getRaceStats : Race → RaceStats
  | .human => ⟨150, 200, 14⟩
  | .elf => ⟨125, 250, 13⟩
  | .automaton => ⟨200, 150, 15⟩
  | .daemon => ⟨150, 225, 13⟩
  | .scalekin => ⟨150, 225, 14⟩

/-- normalizeRace: case-insensitive match of the trimmed input against the
race names, defaulting to Human. -/
def normalizeRace (r : JVal) : Race :=
  let raw := jsToLower (jsTrim (jToString (jNullishElse r (.str ""))))
  (RACES.find? (fun x => jsToLower x.label == raw)).getD .human

/-- normalizeRank: case-insensitive match of the trimmed input against the
rank names, defaulting to Bronze. -/
def normalizeRank (r : JVal) : Rank :=
  let raw := jsToLower (jsTrim (jToString (jNullishElse r (.str ""))))
  (RANKS.find? (fun x => jsToLower x.label == raw)).getD .bronze

/-- View of an embedded JavaScript array as a Lean list. -/
def jlistToList : JList → List JVal
  | .nil => []
  | .cons x tl => x :: jlistToList tl

/-- Embed a list of Lean strings as a JavaScript array of strings. -/
def strListToJList : List String → JList
  | [] => .nil
  | s :: tl => .cons (.str s) (strListToJList tl)

/-- normalizeStringArray: coerce to an array, trim every element by
String(x with nullish fallback to the empty string), then either pad or
truncate to the target length, or (with no target length) drop the falsy
(empty) elements. -/
def normalizeStringArray (input : JVal) (targetLen : Option ℕ) : List String :=
  let arr := match input with | .arr xs => jlistToList xs | _ => []
  let out := arr.map (fun x => jsTrim (jToString (jNullishElse x (.str ""))))
  match targetLen with
  | some n => out.take n ++ List.replicate (n - (out.take n).length) ""
  | Option.none => out.filter (fun s => s != "")

/-- An uppercase letter or a digit, the characters the public-code
normalizer keeps (the complement of the source regex [^A-Z0-9]). -/
def isUpperAlnumChar (c : Char) : Bool :=
  ('A' ≤ c && c ≤ 'Z') || ('0' ≤ c && c ≤ '9')

/-- normalizePublicCode: trim, uppercase, strip every character that is not
an uppercase letter or digit, and cap at 16 characters. -/
def normalizePublicCode (v : JVal) : String :=
  let raw := jsToUpper (jsTrim (jToString (jNullishElse v (.str ""))))
  ⟨(raw.data.filter (isUpperAlnumChar ·)).take 16⟩

/-- normalizePartyMembers: trimmed strings, padded then cut to 4 slots. -/
def normalizePartyMembers (v : JVal) : List String :=
  let arr := match v with
    | .arr xs => (jlistToList xs).map (fun x => jsTrim (jToString (jNullishElse x (.str ""))))
    | _ => []
  (arr ++ List.replicate (4 - arr.length) "").take 4

/-- normalizePartyMemberCodes: each element through normalizePublicCode,
padded then cut to 4 slots. -/
def normalizePartyMemberCodes (v : JVal) : List String :=
  let arr := match v with
    | .arr xs => (jlistToList xs).map normalizePublicCode
    | _ => []
  (arr ++ List.replicate (4 - arr.length) "").take 4

/-- The raw (arbitrary) shape fed to normalizeSpell: each field an
arbitrary JavaScript value (absent fields are undefined). -/
structure RawSpell where
  id : JVal := .undefined
  name : JVal := .undefined
  essence : JVal := .undefined
  mpTier : JVal := .undefined
  mpCost : JVal := .undefined
  damage : JVal := .undefined
  range : JVal := .undefined
  description : JVal := .undefined

/-- A normalized Spell. -/
structure Spell where
  id : String
  name : String
  essence : String
  mpTier : MpTier
  mpCost : ℚ
  damage : String
  range : String
  description : String
deriving DecidableEq, Repr

/-- normalizeSpell; the freshId parameter stands for the
crypto.randomUUID() call used when the input id is nullish. -/
def normalizeSpell (s : RawSpell) (freshId : String) : Spell :=
  let tier := normalizeMpTier s.mpTier
  let cost := MP_TIER_TO_COST tier
  { id := jToString (jNullishElse s.id (.str freshId))
    name := jsTrim (jToString (jNullishElse s.name (.str "")))
    essence := jsTrim (jToString (jNullishElse s.essence (.str "")))
    mpTier := tier
    mpCost := cost
    damage := jsTrim (jToString (jNullishElse s.damage (.str "")))
    range := jsTrim (jToString (jNullishElse s.range (.str "")))
    description := jsTrim (jToString (jNullishElse s.description (.str ""))) }

/-- An ability-bonus map: for each ability key, either a retained bonus or
no entry (the Partial record of the source). -/
structure AbilityBonuses where
  str : Option ℚ := Option.none
  dex : Option ℚ := Option.none
  con : Option ℚ := Option.none
  int : Option ℚ := Option.none
  wis : Option ℚ := Option.none
  cha : Option ℚ := Option.none
deriving DecidableEq, Repr

/-- One entry of normalizeAbilityBonuses: kept only when Number(v[k]) is
finite and nonzero. -/
def abilityBonusEntry (b : JVal) (key : String) : Option ℚ :=
  match jsToNumber (objGet b key) with
  | .fin q => if q ≠ 0 then some q else Option.none
  | _ => Option.none

/-- normalizeAbilityBonuses, the six-key loop unrolled. -/
def normalizeAbilityBonuses (b : JVal) : AbilityBonuses :=
  { str := abilityBonusEntry b "str"
    dex := abilityBonusEntry b "dex"
    con := abilityBonusEntry b "con"
    int := abilityBonusEntry b "int"
    wis := abilityBonusEntry b "wis"
    cha := abilityBonusEntry b "cha" }

/-- The raw shape fed to normalizeArmor. -/
structure RawArmor where
  id : JVal := .undefined
  name : JVal := .undefined
  acBonus : JVal := .undefined
  effect : JVal := .undefined
  abilityBonuses : JVal := .undefined

/-- A normalized Armor. -/
structure Armor where
  id : String
  name : String
  acBonus : ℚ
  effect : String
  abilityBonuses : AbilityBonuses
deriving DecidableEq, Repr

/-- normalizeArmor. -/
def normalizeArmor (a : RawArmor) (freshId : String) : Armor :=
  let n := jsToNumber a.acBonus
  { id := jToString (jNullishElse a.id (.str freshId))
    name := jsTrim (jToString (jNullishElse a.name (.str "")))
    acBonus := match n with | .fin q => q | _ => 0
    effect := jsTrim (jToString (jNullishElse a.effect (.str "")))
    abilityBonuses := normalizeAbilityBonuses a.abilityBonuses }

/-- The six base ability scores. -/
structure Abilities where
  str : ℚ
  dex : ℚ
  con : ℚ
  int : ℚ
  wis : ℚ
  cha : ℚ
deriving DecidableEq, Repr

/-- One entry of normalizeAbilitiesBase: Number-coerced, clamped to
[1, 30] when finite, else the fallback 10. -/
def abilityBaseEntry (v : JVal) (key : String) : ℚ :=
  match jsToNumber (objGet v key) with
  | .fin q => clamp (.fin q) 1 30
  | _ => 10

/-- normalizeAbilitiesBase, the six-key loop unrolled. -/
def normalizeAbilitiesBase (v : JVal) : Abilities :=
  { str := abilityBaseEntry v "str"
    dex := abilityBaseEntry v "dex"
    con := abilityBaseEntry v "con"
    int := abilityBaseEntry v "int"
    wis := abilityBaseEntry v "wis"
    cha := abilityBaseEntry v "cha" }

/-- The eighteen skill proficiency flags. -/
structure SkillProficiencies where
  acrobatics : Bool
  animal_handling : Bool
  arcana : Bool
  athletics : Bool
  deception : Bool
  history : Bool
  insight : Bool
  intimidation : Bool
  investigation : Bool
  medicine : Bool
  nature : Bool
  perception : Bool
  performance : Bool
  persuasion : Bool
  religion : Bool
  sleight_of_hand : Bool
  stealth : Bool
  survival : Bool
deriving DecidableEq, Repr

/-- One proficiency flag: Boolean(v[k]). -/
def profEntry (v : JVal) (key : String) : Bool :=
  jsTruthy (objGet v key)

/-- normalizeSkillProfs, the skill loop unrolled. -/
def normalizeSkillProfs (v : JVal) : SkillProficiencies :=
  { acrobatics := profEntry v "acrobatics"
    animal_handling := profEntry v "animal_handling"
    arcana := profEntry v "arcana"
    athletics := profEntry v "athletics"
    deception := profEntry v "deception"
    history := profEntry v "history"
    insight := profEntry v "insight"
    intimidation := profEntry v "intimidation"
    investigation := profEntry v "investigation"
    medicine := profEntry v "medicine"
    nature := profEntry v "nature"
    perception := profEntry v "perception"
    performance := profEntry v "performance"
    persuasion := profEntry v "persuasion"
    religion := profEntry v "religion"
    sleight_of_hand := profEntry v "sleight_of_hand"
    stealth := profEntry v "stealth"
    survival := profEntry v "survival" }

/-- The six saving-throw proficiency flags. -/
structure SaveProficiencies where
  str : Bool
  dex : Bool
  con : Bool
  int : Bool
  wis : Bool
  cha : Bool
deriving DecidableEq, Repr

/-- normalizeSaveProfs, the ability loop unrolled. -/
def normalizeSaveProfs (v : JVal) : SaveProficiencies :=
  { str := profEntry v "str"
    dex := profEntry v "dex"
    con := profEntry v "con"
    int := profEntry v "int"
    wis := profEntry v "wis"
    cha := profEntry v "cha" }

/-- The four currency tiers. -/
inductive CoinKey where
  | bronze
  | silver
  | gold
  | diamond
deriving DecidableEq, Repr

/-- A currency bank. -/
structure Bank where
  bronze : ℚ
  silver : ℚ
  gold : ℚ
  diamond : ℚ
deriving DecidableEq, Repr

/-- Keyed read of a bank. -/
def Bank.get (b : Bank) : CoinKey → ℚ
  | .bronze => b.bronze
  | .silver => b.silver
  | .gold => b.gold
  | .diamond => b.diamond

/-- Keyed write of a bank (the computed-key spread of the source). -/
def Bank.set (b : Bank) : CoinKey → ℚ → Bank
  | .bronze, v => { b with bronze := v }
  | .silver, v => { b with silver := v }
  | .gold, v => { b with gold := v }
  | .diamond, v => { b with diamond := v }

/-- One entry of normalizeBank: Number-coerced; when finite, floored and
capped below at 0; else 0. -/
def bankEntry (v : JVal) (key : String) : ℚ :=
  match jsToNumber (objGet v key) with
  | .fin q => max 0 (⌊q⌋ : ℚ)
  | _ => 0

/-- normalizeBank, the coin loop unrolled. -/
def normalizeBank (v : JVal) : Bank :=
  { bronze := bankEntry v "bronze"
    silver := bankEntry v "silver"
    gold := bankEntry v "gold"
    diamond := bankEntry v "diamond" }

/-- The raw shape fed to normalizeCharacter: every field an arbitrary
JavaScript value, absent fields being undefined.  public_code is the legacy
alternate source of the public code. -/
structure RawCharacter where
  id : JVal := .undefined
  publicCode : JVal := .undefined
  public_code : JVal := .undefined
  name : JVal := .undefined
  race : JVal := .undefined
  subtype : JVal := .undefined
  rank : JVal := .undefined
  partyName : JVal := .undefined
  partyMembers : JVal := .undefined
  partyMemberCodes : JVal := .undefined
  missionDirective : JVal := .undefined
  notes : JVal := .undefined
  level : JVal := .undefined
  maxHp : JVal := .undefined
  maxMp : JVal := .undefined
  currentHp : JVal := .undefined
  currentMp : JVal := .undefined
  abilitiesBase : JVal := .undefined
  skillProficiencies : JVal := .undefined
  saveProficiencies : JVal := .undefined
  knownSpellIds : JVal := .undefined
  passiveIds : JVal := .undefined
  equippedWeaponId : JVal := .undefined
  equippedArmorId : JVal := .undefined
  personalBank : JVal := .undefined
  partyBank : JVal := .undefined
  weapons : JVal := .undefined
  armors : JVal := .undefined

/-- A normalized Character.  The two equipped ids stay JavaScript values
because the source passes them through untouched apart from the nullish
fallback to null; weapons and armors are untouched legacy payloads. -/
structure Character where
  id : String
  publicCode : String
  name : String
  race : String
  subtype : String
  rank : Rank
  partyName : String
  partyMembers : List String
  partyMemberCodes : List String
  missionDirective : String
  notes : String
  level : ℚ
  maxHp : ℚ
  maxMp : ℚ
  currentHp : ℚ
  currentMp : ℚ
  abilitiesBase : Abilities
  skillProficiencies : SkillProficiencies
  saveProficiencies : SaveProficiencies
  knownSpellIds : List String
  passiveIds : List String
  equippedWeaponId : JVal
  equippedArmorId : JVal
  personalBank : Bank
  partyBank : Bank
  weapons : JVal
  armors : JVal

/-- The pattern Number.isFinite(v) ? clamp(v, lo, hi) : d used for the
level and pool fields of normalizeCharacter. -/
def finClampOr (v : JVal) (lo hi d : ℚ) : ℚ :=
  match v with
  | .num (.fin q) => clamp (.fin q) lo hi
  | _ => d

/-- The pattern Number.isFinite(v) ? v : d used for the current-vitals
fields of normalizeCharacter. -/
def finOrQ (v : JVal) (d : ℚ) : ℚ :=
  match v with
  | .num (.fin q) => q
  | _ => d

/-- normalizeCharacter.  freshId stands for the cryptoRandomId() call used
when the input id is nullish, and freshCode for the generatePublicCode()
call used when the trimmed upper-cased public code comes out empty. -/
def normalizeCharacter (c : RawCharacter) (freshId freshCode : String) : Character :=
  let id := jToString (jNullishElse c.id (.str freshId))
  let name := jsTrim (jToString (jNullishElse c.name (.str "")))
  let raceTrim := jsTrim (jToString (jNullishElse c.race (.str "")))
  let raceText := if raceTrim = "" then "Human" else raceTrim
  let subtype := jsTrim (jToString (jNullishElse c.subtype (.str "")))
  let rank := normalizeRank c.rank
  let presetKey := normalizeRace (.str raceText)
  let defaults := getRaceStats presetKey
  let level := finClampOr c.level 1 20 5
  let maxHp := finClampOr c.maxHp 0 9999 defaults.hp
  let maxMp := finClampOr c.maxMp 0 9999 defaults.mp
  let rawHp := finOrQ c.currentHp maxHp
  let rawMp := finOrQ c.currentMp maxMp
  let pcode := jsToUpper (jsTrim (jToString
    (jNullishElse c.publicCode (jNullishElse c.public_code (.str "")))))
  { id := id
    publicCode := if pcode = "" then freshCode else pcode
    name := name
    race := raceText
    subtype := subtype
    rank := rank
    partyName := jsTrim (jToString (jNullishElse c.partyName (.str "")))
    partyMembers := normalizeStringArray c.partyMembers (some 4)
    partyMemberCodes :=
      (normalizeStringArray c.partyMemberCodes (some 4)).map
        (fun s => jsToUpper (jsTrim s))
    missionDirective := jsTrim (jToString (jNullishElse c.missionDirective (.str "")))
    notes := jToString (jNullishElse c.notes (.str ""))
    level := level
    maxHp := maxHp
    maxMp := maxMp
    currentHp := clamp (.fin rawHp) 0 maxHp
    currentMp := clamp (.fin rawMp) 0 maxMp
    abilitiesBase := normalizeAbilitiesBase c.abilitiesBase
    skillProficiencies := normalizeSkillProfs c.skillProficiencies
    saveProficiencies := normalizeSaveProfs c.saveProficiencies
    knownSpellIds := normalizeStringArray c.knownSpellIds Option.none
    passiveIds := normalizeStringArray c.passiveIds Option.none
    equippedWeaponId := jNullishElse c.equippedWeaponId .null
    equippedArmorId := jNullishElse c.equippedArmorId .null
    personalBank := normalizeBank c.personalBank
    partyBank := normalizeBank c.partyBank
    weapons := c.weapons
    armors := c.armors }

/-- Embed a bank back into the JavaScript object it serializes to. -/
def bankToJObj (b : Bank) : JObj :=
  .cons "bronze" (.num (.fin b.bronze))
    (.cons "silver" (.num (.fin b.silver))
      (.cons "gold" (.num (.fin b.gold))
        (.cons "diamond" (.num (.fin b.diamond)) .nil)))

/-- Embed base abilities back into a JavaScript object. -/
def abilitiesToJObj (a : Abilities) : JObj :=
  .cons "str" (.num (.fin a.str))
    (.cons "dex" (.num (.fin a.dex))
      (.cons "con" (.num (.fin a.con))
        (.cons "int" (.num (.fin a.int))
          (.cons "wis" (.num (.fin a.wis))
            (.cons "cha" (.num (.fin a.cha)) .nil)))))

/-- Embed skill proficiencies back into a JavaScript object. -/
def skillProfsToJObj (p : SkillProficiencies) : JObj :=
  .cons "acrobatics" (.bool p.acrobatics)
    (.cons "animal_handling" (.bool p.animal_handling)
      (.cons "arcana" (.bool p.arcana)
        (.cons "athletics" (.bool p.athletics)
          (.cons "deception" (.bool p.deception)
            (.cons "history" (.bool p.history)
              (.cons "insight" (.bool p.insight)
                (.cons "intimidation" (.bool p.intimidation)
                  (.cons "investigation" (.bool p.investigation)
                    (.cons "medicine" (.bool p.medicine)
                      (.cons "nature" (.bool p.nature)
                        (.cons "perception" (.bool p.perception)
                          (.cons "performance" (.bool p.performance)
                            (.cons "persuasion" (.bool p.persuasion)
                              (.cons "religion" (.bool p.religion)
                                (.cons "sleight_of_hand" (.bool p.sleight_of_hand)
                                  (.cons "stealth" (.bool p.stealth)
                                    (.cons "survival" (.bool p.survival) .nil)))))))))))))))))

/-- Embed saving-throw proficiencies back into a JavaScript object. -/
def saveProfsToJObj (p : SaveProficiencies) : JObj :=
  .cons "str" (.bool p.str)
    (.cons "dex" (.bool p.dex)
      (.cons "con" (.bool p.con)
        (.cons "int" (.bool p.int)
          (.cons "wis" (.bool p.wis)
            (.cons "cha" (.bool p.cha) .nil)))))

/-- Embed a normalized Character back into the raw record shape, exactly as
the spread ...character produces before a mutation merge is re-normalized
(updateSelectedCharacter in the source). -/
def charToRaw (ch : Character) : RawCharacter :=
  { id := .str ch.id
    publicCode := .str ch.publicCode
    public_code := .undefined
    name := .str ch.name
    race := .str ch.race
    subtype := .str ch.subtype
    rank := .str ch.rank.label
    partyName := .str ch.partyName
    partyMembers := .arr (strListToJList ch.partyMembers)
    partyMemberCodes := .arr (strListToJList ch.partyMemberCodes)
    missionDirective := .str ch.missionDirective
    notes := .str ch.notes
    level := .num (.fin ch.level)
    maxHp := .num (.fin ch.maxHp)
    maxMp := .num (.fin ch.maxMp)
    currentHp := .num (.fin ch.currentHp)
    currentMp := .num (.fin ch.currentMp)
    abilitiesBase := .obj (abilitiesToJObj ch.abilitiesBase)
    skillProficiencies := .obj (skillProfsToJObj ch.skillProficiencies)
    saveProficiencies := .obj (saveProfsToJObj ch.saveProficiencies)
    knownSpellIds := .arr (strListToJList ch.knownSpellIds)
    passiveIds := .arr (strListToJList ch.passiveIds)
    equippedWeaponId := ch.equippedWeaponId
    equippedArmorId := ch.equippedArmorId
    personalBank := .obj (bankToJObj ch.personalBank)
    partyBank := .obj (bankToJObj ch.partyBank)
    weapons := ch.weapons
    armors := ch.armors }

/-- castSpell: rejected outright when currentMp < mpCost; otherwise the
update currentMp := clamp(currentMp - mpCost, 0, maxMp) is merged into the
character and re-normalized (onUpdateCharacter / updateSelectedCharacter). -/
def castSpell (ch : Character) (spell : Spell) (freshId freshCode : String) : Character :=
  if ch.currentMp < spell.mpCost then ch
  else
    normalizeCharacter
      { charToRaw ch with
          currentMp := .num (.fin (clamp (.fin (ch.currentMp - spell.mpCost)) 0 ch.maxMp)) }
      freshId freshCode

/-- setHp: the update currentHp := clamp(v, 0, maxHp), merged and
re-normalized. -/
def setHp (ch : Character) (v : JNum) (freshId freshCode : String) : Character :=
  normalizeCharacter
    { charToRaw ch with currentHp := .num (.fin (clamp v 0 ch.maxHp)) }
    freshId freshCode

/-- setMp: the update currentMp := clamp(v, 0, maxMp), merged and
re-normalized. -/
def setMp (ch : Character) (v : JNum) (freshId freshCode : String) : Character :=
  normalizeCharacter
    { charToRaw ch with currentMp := .num (.fin (clamp v 0 ch.maxMp)) }
    freshId freshCode

/-- confirmEatCoin: rejected when the selected coin count is not positive;
otherwise that coin is decremented by one and currentMp set to maxMp in one
merged update, which is then re-normalized. -/
def confirmEatCoin (ch : Character) (coin : CoinKey) (freshId freshCode : String) : Character :=
  let current := ch.personalBank.get coin
  if current ≤ 0 then ch
  else
    normalizeCharacter
      { charToRaw ch with
          personalBank := .obj (bankToJObj (ch.personalBank.set coin (current - 1)))
          currentMp := .num (.fin ch.maxMp) }
      freshId freshCode

/-! Character-level and string-level lemmas about trimming and casing. -/

theorem asciiUpper_idem (c : Char) : asciiUpper (asciiUpper c) = asciiUpper c := by
  have key : ∀ p ∈ upperPairs, upperPairs.find? (fun q => q.1 == p.2) = Option.none := by decide
  unfold asciiUpper
  cases h : upperPairs.find? (fun p => p.1 == c) with
  | none => simp [h]
  | some p =>
    have hp := List.mem_of_find?_eq_some h
    simp [key p hp]

theorem isWs_asciiUpper (c : Char) : isWsChar (asciiUpper c) = isWsChar c := by
  have key : ∀ p ∈ upperPairs, isWsChar p.1 = false ∧ isWsChar p.2 = false := by decide
  unfold asciiUpper
  cases h : upperPairs.find? (fun p => p.1 == c) with
  | none => simp
  | some p =>
    have hp := List.mem_of_find?_eq_some h
    have hc : p.1 = c := by simpa using List.find?_some h
    subst hc
    simp [(key p hp).1, (key p hp).2]

theorem dropWhile_dropWhile (p : Char → Bool) (l : List Char) :
    (l.dropWhile p).dropWhile p = l.dropWhile p := by
  induction l with
  | nil => rfl
  | cons a t ih =>
    by_cases h : p a
    · simpa [List.dropWhile_cons, h] using ih
    · simp [List.dropWhile_cons, h]

theorem dropWhile_take (p : Char → Bool) (l : List Char) (h : l.dropWhile p = l) (n : ℕ) :
    (l.take n).dropWhile p = l.take n := by
  cases l with
  | nil => simp
  | cons a t =>
    have ha : p a = false := by
      by_contra hp
      have hpa : p a = true := by
        cases hpa2 : p a
        · exact absurd hpa2 hp
        · rfl
      have h2 : t.dropWhile p = a :: t := by simpa [List.dropWhile_cons, hpa] using h
      have hle : (t.dropWhile p).length ≤ t.length := (List.dropWhile_suffix p).length_le
      rw [h2] at hle
      simp at hle
    cases n with
    | zero => simp
    | succ m => simp [List.take_succ_cons, List.dropWhile_cons, ha]

theorem trimL_idem (l : List Char) : trimL (trimL l) = trimL l := by
  have w := fun c => isWsChar c
  unfold trimL
  set A := l.dropWhile (fun c => isWsChar c) with hA
  set B := (A.reverse.dropWhile (fun c => isWsChar c)).reverse with hB
  have hAfix : A.dropWhile (fun c => isWsChar c) = A := by
    rw [hA]; exact dropWhile_dropWhile _ l
  have hBrev : B.reverse = A.reverse.dropWhile (fun c => isWsChar c) := by
    rw [hB, List.reverse_reverse]
  have hBpre : B <+: A := by
    rw [← List.reverse_suffix, hBrev]
    exact List.dropWhile_suffix _
  have hBtake : B = A.take B.length := List.prefix_iff_eq_take.mp hBpre
  have hBfix : B.dropWhile (fun c => isWsChar c) = B := by
    rw [hBtake]
    exact dropWhile_take _ A hAfix B.length
  rw [hBfix, hBrev, dropWhile_dropWhile, ← hBrev, List.reverse_reverse]

theorem trimL_map_upper (l : List Char) :
    trimL (l.map asciiUpper) = (trimL l).map asciiUpper := by
  have hdw : ∀ m : List Char,
      (m.map asciiUpper).dropWhile (fun c => isWsChar c)
        = (m.dropWhile (fun c => isWsChar c)).map asciiUpper := by
    intro m
    rw [List.dropWhile_map]
    have hfun : ((fun c => isWsChar c) ∘ asciiUpper) = (fun c => isWsChar c) :=
      funext fun c => isWs_asciiUpper c
    rw [hfun]
  unfold trimL
  rw [hdw, ← List.map_reverse, hdw, List.map_reverse]

theorem map_upper_idem (l : List Char) :
    (l.map asciiUpper).map asciiUpper = l.map asciiUpper := by
  rw [List.map_map]
  exact List.map_congr_left (fun c _ => asciiUpper_idem c)

theorem jsTrim_idem (s : String) : jsTrim (jsTrim s) = jsTrim s := by
  unfold jsTrim
  exact congrArg String.mk (trimL_idem s.data)

theorem jsTrim_jsToUpper (s : String) : jsTrim (jsToUpper s) = jsToUpper (jsTrim s) := by
  unfold jsTrim jsToUpper
  exact congrArg String.mk (trimL_map_upper s.data)

theorem jsToUpper_idem (s : String) : jsToUpper (jsToUpper s) = jsToUpper s := by
  unfold jsToUpper
  exact congrArg String.mk (map_upper_idem s.data)

theorem upTrim_fix (s : String) :
    jsToUpper (jsTrim (jsToUpper (jsTrim s))) = jsToUpper (jsTrim s) := by
  rw [jsTrim_jsToUpper, jsTrim_idem, jsToUpper_idem]

theorem jsToUpper_eq_empty (s : String) : jsToUpper s = "" ↔ s = "" := by
  constructor
  · intro h
    apply String.ext
    show s.data = "".data
    have h3 : s.data.map asciiUpper = [] := congrArg String.data h
    have h4 : s.data = [] := by
      cases hdata : s.data with
      | nil => rfl
      | cons a t => rw [hdata] at h3; simp at h3
    rw [h4]
  · intro h
    rw [h]
    rfl

theorem jsTrim_empty : jsTrim "" = "" := rfl

/-! Evaluation lemmas on embedded JavaScript values, and clamp facts. -/

theorem jNullishElse_str (s : String) (d : JVal) : jNullishElse (.str s) d = .str s := rfl

theorem jToString_str (s : String) : jToString (.str s) = s := rfl

theorem jsToNumber_num (n : JNum) : jsToNumber (.num n) = n := rfl

theorem clamp_bounds (n : JNum) (lo hi : ℚ) (h : lo ≤ hi) :
    lo ≤ clamp n lo hi ∧ clamp n lo hi ≤ hi := by
  cases n with
  | fin q => exact ⟨le_max_left _ _, max_le h (min_le_left _ _)⟩
  | nan => exact ⟨le_refl _, h⟩
  | inf => exact ⟨le_refl _, h⟩
  | neginf => exact ⟨le_refl _, h⟩

theorem clamp_of_mem (q lo hi : ℚ) (h1 : lo ≤ q) (h2 : q ≤ hi) :
    clamp (.fin q) lo hi = q := by
  simp only [clamp]
  rw [min_eq_right h2, max_eq_right h1]

theorem clamp_nonfin_nan (lo hi : ℚ) : clamp .nan lo hi = lo := rfl

theorem clamp_nonfin_inf (lo hi : ℚ) : clamp .inf lo hi = lo := rfl

theorem clamp_nonfin_neginf (lo hi : ℚ) : clamp .neginf lo hi = lo := rfl

/-! Roundtrip lemmas: re-normalizing an embedded normalized component gives
it back. -/

theorem jlist_round (l : List String) : jlistToList (strListToJList l) = l.map .str := by
  induction l with
  | nil => rfl
  | cons s t ih => simp [strListToJList, jlistToList, ih]

theorem nsa_some_length (v : JVal) (n : ℕ) :
    (normalizeStringArray v (some n)).length = n := by
  simp only [normalizeStringArray, List.length_append, List.length_replicate,
    List.length_take]
  omega

theorem nsa_some_trimmed (v : JVal) (n : ℕ) :
    ∀ s ∈ normalizeStringArray v (some n), jsTrim s = s := by
  intro s hs
  simp only [normalizeStringArray] at hs
  rcases List.mem_append.mp hs with h | h
  · have h2 := List.mem_of_mem_take h
    rcases List.mem_map.mp h2 with ⟨x, _, rfl⟩
    exact jsTrim_idem _
  · have hse : s = "" := List.eq_of_mem_replicate h
    subst hse
    rfl

theorem nsa_none_good (v : JVal) :
    ∀ s ∈ normalizeStringArray v Option.none, jsTrim s = s ∧ s ≠ "" := by
  intro s hs
  simp only [normalizeStringArray] at hs
  have h2 := List.mem_filter.mp hs
  rcases List.mem_map.mp h2.1 with ⟨x, _, rfl⟩
  refine ⟨jsTrim_idem _, ?_⟩
  simpa using h2.2

theorem nsa_some4_round (out : List String) (hlen : out.length = 4)
    (htrim : ∀ s ∈ out, jsTrim s = s) :
    normalizeStringArray (.arr (strListToJList out)) (some 4) = out := by
  simp only [normalizeStringArray, jlist_round, List.map_map]
  have hcomp : ((fun x => jsTrim (jToString (jNullishElse x (.str "")))) ∘ JVal.str)
      = fun s : String => jsTrim s := funext fun s => rfl
  rw [hcomp]
  have hmap : out.map (fun s => jsTrim s) = out := by
    conv_rhs => rw [← List.map_id out]
    exact List.map_congr_left (fun s hs => htrim s hs)
  rw [hmap, ← hlen, List.take_length]
  simp

theorem nsa_none_round (out : List String)
    (hgood : ∀ s ∈ out, jsTrim s = s ∧ s ≠ "") :
    normalizeStringArray (.arr (strListToJList out)) Option.none = out := by
  simp only [normalizeStringArray, jlist_round, List.map_map]
  have hcomp : ((fun x => jsTrim (jToString (jNullishElse x (.str "")))) ∘ JVal.str)
      = fun s : String => jsTrim s := funext fun s => rfl
  rw [hcomp]
  have hmap : out.map (fun s => jsTrim s) = out := by
    conv_rhs => rw [← List.map_id out]
    exact List.map_congr_left (fun s hs => (hgood s hs).1)
  rw [hmap]
  refine List.filter_eq_self.mpr ?_
  intro s hs
  simpa using (hgood s hs).2

theorem bank_round (b : Bank)
    (h1 : 0 ≤ b.bronze ∧ ((⌊b.bronze⌋ : ℤ) : ℚ) = b.bronze)
    (h2 : 0 ≤ b.silver ∧ ((⌊b.silver⌋ : ℤ) : ℚ) = b.silver)
    (h3 : 0 ≤ b.gold ∧ ((⌊b.gold⌋ : ℤ) : ℚ) = b.gold)
    (h4 : 0 ≤ b.diamond ∧ ((⌊b.diamond⌋ : ℤ) : ℚ) = b.diamond) :
    normalizeBank (.obj (bankToJObj b)) = b := by
  cases b with
  | mk br si go di =>
    show Bank.mk (max 0 ((⌊br⌋ : ℤ) : ℚ)) (max 0 ((⌊si⌋ : ℤ) : ℚ))
      (max 0 ((⌊go⌋ : ℤ) : ℚ)) (max 0 ((⌊di⌋ : ℤ) : ℚ)) = Bank.mk br si go di
    rw [h1.2, h2.2, h3.2, h4.2,
      max_eq_right h1.1, max_eq_right h2.1, max_eq_right h3.1, max_eq_right h4.1]

theorem bankEntry_count (v : JVal) (key : String) :
    0 ≤ bankEntry v key ∧ ((⌊bankEntry v key⌋ : ℤ) : ℚ) = bankEntry v key := by
  cases h : jsToNumber (objGet v key) with
  | fin q =>
    have hb : bankEntry v key = max 0 ((⌊q⌋ : ℤ) : ℚ) := by unfold bankEntry; rw [h]
    rw [hb]
    refine ⟨le_max_left _ _, ?_⟩
    by_cases h2 : (0 : ℚ) ≤ ((⌊q⌋ : ℤ) : ℚ)
    · rw [max_eq_right h2, Int.floor_intCast]
    · rw [max_eq_left (le_of_lt (not_le.mp h2))]
      simp
  | nan =>
    have hb : bankEntry v key = 0 := by unfold bankEntry; rw [h]
    rw [hb]; norm_num
  | inf =>
    have hb : bankEntry v key = 0 := by unfold bankEntry; rw [h]
    rw [hb]; norm_num
  | neginf =>
    have hb : bankEntry v key = 0 := by unfold bankEntry; rw [h]
    rw [hb]; norm_num

theorem abilities_round (a : Abilities)
    (h1 : 1 ≤ a.str ∧ a.str ≤ 30) (h2 : 1 ≤ a.dex ∧ a.dex ≤ 30)
    (h3 : 1 ≤ a.con ∧ a.con ≤ 30) (h4 : 1 ≤ a.int ∧ a.int ≤ 30)
    (h5 : 1 ≤ a.wis ∧ a.wis ≤ 30) (h6 : 1 ≤ a.cha ∧ a.cha ≤ 30) :
    normalizeAbilitiesBase (.obj (abilitiesToJObj a)) = a := by
  cases a with
  | mk vs vd vc vi vw vh =>
    show Abilities.mk (clamp (.fin vs) 1 30) (clamp (.fin vd) 1 30) (clamp (.fin vc) 1 30)
      (clamp (.fin vi) 1 30) (clamp (.fin vw) 1 30) (clamp (.fin vh) 1 30)
      = Abilities.mk vs vd vc vi vw vh
    rw [clamp_of_mem _ _ _ h1.1 h1.2, clamp_of_mem _ _ _ h2.1 h2.2,
      clamp_of_mem _ _ _ h3.1 h3.2, clamp_of_mem _ _ _ h4.1 h4.2,
      clamp_of_mem _ _ _ h5.1 h5.2, clamp_of_mem _ _ _ h6.1 h6.2]

theorem abilityBaseEntry_mem (v : JVal) (key : String) :
    1 ≤ abilityBaseEntry v key ∧ abilityBaseEntry v key ≤ 30 := by
  cases h : jsToNumber (objGet v key) with
  | fin q =>
    have hb : abilityBaseEntry v key = clamp (.fin q) 1 30 := by
      unfold abilityBaseEntry; rw [h]
    rw [hb]
    exact clamp_bounds _ _ _ (by norm_num)
  | nan =>
    have hb : abilityBaseEntry v key = 10 := by unfold abilityBaseEntry; rw [h]
    rw [hb]; norm_num
  | inf =>
    have hb : abilityBaseEntry v key = 10 := by unfold abilityBaseEntry; rw [h]
    rw [hb]; norm_num
  | neginf =>
    have hb : abilityBaseEntry v key = 10 := by unfold abilityBaseEntry; rw [h]
    rw [hb]; norm_num

theorem skillProfs_round (p : SkillProficiencies) :
    normalizeSkillProfs (.obj (skillProfsToJObj p)) = p := rfl

theorem saveProfs_round (p : SaveProficiencies) :
    normalizeSaveProfs (.obj (saveProfsToJObj p)) = p := rfl

theorem normalizeRank_label (r : Rank) : normalizeRank (.str r.label) = r := by
  cases r <;> decide

theorem raceStats_bounds (r : Race) :
    0 ≤ (getRaceStats r).hp ∧ (getRaceStats r).hp ≤ 9999
      ∧ 0 ≤ (getRaceStats r).mp ∧ (getRaceStats r).mp ≤ 9999 := by
  cases r <;> norm_num [getRaceStats]

theorem jNullishElse_undef (d : JVal) : jNullishElse .undefined d = d := rfl

theorem jNullishElse_null (d : JVal) : jNullishElse .null d = d := rfl

theorem jNullishElse_null_ne_undef (v : JVal) : jNullishElse v .null ≠ .undefined := by
  cases v <;> simp [jNullishElse, jNullish]

theorem jNullishElse_null_self (v : JVal) (h : v ≠ .undefined) : jNullishElse v .null = v := by
  cases v <;> first | rfl | exact absurd rfl h

theorem pc_spec (x fcode : String)
    (h1 : jsToUpper (jsTrim fcode) = fcode) (h2 : fcode ≠ "") :
    jsToUpper (jsTrim (if jsToUpper (jsTrim x) = "" then fcode else jsToUpper (jsTrim x)))
        = (if jsToUpper (jsTrim x) = "" then fcode else jsToUpper (jsTrim x))
      ∧ (if jsToUpper (jsTrim x) = "" then fcode else jsToUpper (jsTrim x)) ≠ "" := by
  by_cases hx : jsToUpper (jsTrim x) = ""
  · rw [if_pos hx]
    exact ⟨h1, h2⟩
  · rw [if_neg hx]
    exact ⟨upTrim_fix x, hx⟩

theorem race_spec (t : String) :
    jsTrim (if jsTrim t = "" then "Human" else jsTrim t)
        = (if jsTrim t = "" then "Human" else jsTrim t)
      ∧ (if jsTrim t = "" then "Human" else jsTrim t) ≠ "" := by
  by_cases hx : jsTrim t = ""
  · rw [if_pos hx]
    constructor
    · rfl
    · decide
  · rw [if_neg hx]
    exact ⟨jsTrim_idem t, hx⟩

theorem finClampOr_mem (v : JVal) (lo hi d : ℚ) (h : lo ≤ hi) (hd : lo ≤ d ∧ d ≤ hi) :
    lo ≤ finClampOr v lo hi d ∧ finClampOr v lo hi d ≤ hi := by
  unfold finClampOr
  cases v <;> try exact hd
  rename_i n
  cases n <;> try exact hd
  rename_i q
  exact clamp_bounds _ _ _ h

theorem finClampOr_fin (q : ℚ) (lo hi d : ℚ) :
    finClampOr (.num (.fin q)) lo hi d = clamp (.fin q) lo hi := rfl

theorem finClampOr_nonfin (v : JVal) (lo hi d : ℚ) (h : jIsFiniteNum v = false) :
    finClampOr v lo hi d = d := by
  unfold finClampOr
  cases v with
  | num n => cases n with
    | fin q => exact absurd h (by simp [jIsFiniteNum])
    | nan => rfl
    | inf => rfl
    | neginf => rfl
  | undefined => rfl
  | null => rfl
  | bool b => rfl
  | str s => rfl
  | arr xs => rfl
  | obj kvs => rfl

theorem finOrQ_fin (q : ℚ) (d : ℚ) : finOrQ (.num (.fin q)) d = q := rfl

theorem finOrQ_nonfin (v : JVal) (d : ℚ) (h : jIsFiniteNum v = false) :
    finOrQ v d = d := by
  unfold finOrQ
  cases v with
  | num n => cases n with
    | fin q => exact absurd h (by simp [jIsFiniteNum])
    | nan => rfl
    | inf => rfl
    | neginf => rfl
  | undefined => rfl
  | null => rfl
  | bool b => rfl
  | str s => rfl
  | arr xs => rfl
  | obj kvs => rfl

theorem codes_map_fix (l : List String)
    (h : ∀ s ∈ l, jsTrim s = s ∧ jsToUpper s = s) :
    l.map (fun s => jsToUpper (jsTrim s)) = l := by
  conv_rhs => rw [← List.map_id l]
  refine List.map_congr_left ?_
  intro s hs
  rw [(h s hs).1, (h s hs).2]
  rfl

/-- The shape invariant every output of normalizeCharacter satisfies — the
exact per-field facts that make a second normalization the identity. -/
structure CharShape (ch : Character) : Prop where
  name_trim : jsTrim ch.name = ch.name
  pc_fix : jsToUpper (jsTrim ch.publicCode) = ch.publicCode
  pc_ne : ch.publicCode ≠ ""
  race_trim : jsTrim ch.race = ch.race
  race_ne : ch.race ≠ ""
  subtype_trim : jsTrim ch.subtype = ch.subtype
  partyName_trim : jsTrim ch.partyName = ch.partyName
  mission_trim : jsTrim ch.missionDirective = ch.missionDirective
  level_mem : 1 ≤ ch.level ∧ ch.level ≤ 20
  maxHp_mem : 0 ≤ ch.maxHp ∧ ch.maxHp ≤ 9999
  maxMp_mem : 0 ≤ ch.maxMp ∧ ch.maxMp ≤ 9999
  curHp_mem : 0 ≤ ch.currentHp ∧ ch.currentHp ≤ ch.maxHp
  curMp_mem : 0 ≤ ch.currentMp ∧ ch.currentMp ≤ ch.maxMp
  members_len : ch.partyMembers.length = 4
  members_trim : ∀ s ∈ ch.partyMembers, jsTrim s = s
  codes_len : ch.partyMemberCodes.length = 4
  codes_fix : ∀ s ∈ ch.partyMemberCodes, jsTrim s = s ∧ jsToUpper s = s
  ab_mem : (1 ≤ ch.abilitiesBase.str ∧ ch.abilitiesBase.str ≤ 30)
    ∧ (1 ≤ ch.abilitiesBase.dex ∧ ch.abilitiesBase.dex ≤ 30)
    ∧ (1 ≤ ch.abilitiesBase.con ∧ ch.abilitiesBase.con ≤ 30)
    ∧ (1 ≤ ch.abilitiesBase.int ∧ ch.abilitiesBase.int ≤ 30)
    ∧ (1 ≤ ch.abilitiesBase.wis ∧ ch.abilitiesBase.wis ≤ 30)
    ∧ (1 ≤ ch.abilitiesBase.cha ∧ ch.abilitiesBase.cha ≤ 30)
  spells_good : ∀ s ∈ ch.knownSpellIds, jsTrim s = s ∧ s ≠ ""
  passives_good : ∀ s ∈ ch.passiveIds, jsTrim s = s ∧ s ≠ ""
  weapon_ne : ch.equippedWeaponId ≠ .undefined
  armor_ne : ch.equippedArmorId ≠ .undefined
  personal_count : (0 ≤ ch.personalBank.bronze
      ∧ ((⌊ch.personalBank.bronze⌋ : ℤ) : ℚ) = ch.personalBank.bronze)
    ∧ (0 ≤ ch.personalBank.silver
      ∧ ((⌊ch.personalBank.silver⌋ : ℤ) : ℚ) = ch.personalBank.silver)
    ∧ (0 ≤ ch.personalBank.gold
      ∧ ((⌊ch.personalBank.gold⌋ : ℤ) : ℚ) = ch.personalBank.gold)
    ∧ (0 ≤ ch.personalBank.diamond
      ∧ ((⌊ch.personalBank.diamond⌋ : ℤ) : ℚ) = ch.personalBank.diamond)
  party_count : (0 ≤ ch.partyBank.bronze
      ∧ ((⌊ch.partyBank.bronze⌋ : ℤ) : ℚ) = ch.partyBank.bronze)
    ∧ (0 ≤ ch.partyBank.silver
      ∧ ((⌊ch.partyBank.silver⌋ : ℤ) : ℚ) = ch.partyBank.silver)
    ∧ (0 ≤ ch.partyBank.gold
      ∧ ((⌊ch.partyBank.gold⌋ : ℤ) : ℚ) = ch.partyBank.gold)
    ∧ (0 ≤ ch.partyBank.diamond
      ∧ ((⌊ch.partyBank.diamond⌋ : ℤ) : ℚ) = ch.partyBank.diamond)

theorem renorm_self (ch : Character) (h : CharShape ch) (fid fcode : String) :
    normalizeCharacter (charToRaw ch) fid fcode = ch := by
  have key : normalizeCharacter (charToRaw ch) fid fcode = Character.mk
    (ch.id)
    (if jsToUpper (jsTrim ch.publicCode) = "" then fcode else jsToUpper (jsTrim ch.publicCode))
    (jsTrim ch.name)
    (if jsTrim ch.race = "" then "Human" else jsTrim ch.race)
    (jsTrim ch.subtype)
    (normalizeRank (.str ch.rank.label))
    (jsTrim ch.partyName)
    (normalizeStringArray (.arr (strListToJList ch.partyMembers)) (some 4))
    ((normalizeStringArray (.arr (strListToJList ch.partyMemberCodes)) (some 4)).map
      (fun s => jsToUpper (jsTrim s)))
    (jsTrim ch.missionDirective)
    (ch.notes)
    (clamp (.fin ch.level) 1 20)
    (clamp (.fin ch.maxHp) 0 9999)
    (clamp (.fin ch.maxMp) 0 9999)
    (clamp (.fin ch.currentHp) 0 (clamp (.fin ch.maxHp) 0 9999))
    (clamp (.fin ch.currentMp) 0 (clamp (.fin ch.maxMp) 0 9999))
    (normalizeAbilitiesBase (.obj (abilitiesToJObj ch.abilitiesBase)))
    (normalizeSkillProfs (.obj (skillProfsToJObj ch.skillProficiencies)))
    (normalizeSaveProfs (.obj (saveProfsToJObj ch.saveProficiencies)))
    (normalizeStringArray (.arr (strListToJList ch.knownSpellIds)) Option.none)
    (normalizeStringArray (.arr (strListToJList ch.passiveIds)) Option.none)
    (jNullishElse ch.equippedWeaponId .null)
    (jNullishElse ch.equippedArmorId .null)
    (normalizeBank (.obj (bankToJObj ch.personalBank)))
    (normalizeBank (.obj (bankToJObj ch.partyBank)))
    ch.weapons ch.armors := rfl
  rw [key]
  show _ = Character.mk ch.id ch.publicCode ch.name ch.race ch.subtype ch.rank ch.partyName
    ch.partyMembers ch.partyMemberCodes ch.missionDirective ch.notes ch.level ch.maxHp ch.maxMp
    ch.currentHp ch.currentMp ch.abilitiesBase ch.skillProficiencies ch.saveProficiencies
    ch.knownSpellIds ch.passiveIds ch.equippedWeaponId ch.equippedArmorId ch.personalBank
    ch.partyBank ch.weapons ch.armors
  simp only [Character.mk.injEq]
  refine ⟨trivial, ?_, h.name_trim, ?_, h.subtype_trim, normalizeRank_label _, h.partyName_trim,
    nsa_some4_round _ h.members_len h.members_trim, ?_, h.mission_trim, trivial,
    clamp_of_mem _ _ _ h.level_mem.1 h.level_mem.2,
    clamp_of_mem _ _ _ h.maxHp_mem.1 h.maxHp_mem.2,
    clamp_of_mem _ _ _ h.maxMp_mem.1 h.maxMp_mem.2,
    ?_, ?_,
    abilities_round _ h.ab_mem.1 h.ab_mem.2.1 h.ab_mem.2.2.1 h.ab_mem.2.2.2.1
      h.ab_mem.2.2.2.2.1 h.ab_mem.2.2.2.2.2,
    skillProfs_round _, saveProfs_round _,
    nsa_none_round _ h.spells_good, nsa_none_round _ h.passives_good,
    jNullishElse_null_self _ h.weapon_ne, jNullishElse_null_self _ h.armor_ne,
    bank_round _ h.personal_count.1 h.personal_count.2.1 h.personal_count.2.2.1
      h.personal_count.2.2.2,
    bank_round _ h.party_count.1 h.party_count.2.1 h.party_count.2.2.1 h.party_count.2.2.2,
    trivial, trivial⟩
  · rw [h.pc_fix, if_neg h.pc_ne]
  · rw [h.race_trim, if_neg h.race_ne]
  · rw [nsa_some4_round _ h.codes_len (fun s hs => (h.codes_fix s hs).1)]
    exact codes_map_fix _ h.codes_fix
  · rw [clamp_of_mem _ _ _ h.maxHp_mem.1 h.maxHp_mem.2]
    exact clamp_of_mem _ _ _ h.curHp_mem.1 h.curHp_mem.2
  · rw [clamp_of_mem _ _ _ h.maxMp_mem.1 h.maxMp_mem.2]
    exact clamp_of_mem _ _ _ h.curMp_mem.1 h.curMp_mem.2

theorem normChar_shape (raw : RawCharacter) (fid fcode : String)
    (h1 : jsToUpper (jsTrim fcode) = fcode) (h2 : fcode ≠ "") :
    CharShape (normalizeCharacter raw fid fcode) := by
  constructor
  · exact jsTrim_idem _
  · exact (pc_spec _ fcode h1 h2).1
  · exact (pc_spec _ fcode h1 h2).2
  · exact (race_spec _).1
  · exact (race_spec _).2
  · exact jsTrim_idem _
  · exact jsTrim_idem _
  · exact jsTrim_idem _
  · exact finClampOr_mem _ 1 20 5 (by norm_num) (by norm_num)
  · exact finClampOr_mem _ 0 9999 _ (by norm_num)
      ⟨(raceStats_bounds _).1, (raceStats_bounds _).2.1⟩
  · exact finClampOr_mem _ 0 9999 _ (by norm_num)
      ⟨(raceStats_bounds _).2.2.1, (raceStats_bounds _).2.2.2⟩
  · exact clamp_bounds _ _ _ (finClampOr_mem _ 0 9999 _ (by norm_num)
      ⟨(raceStats_bounds _).1, (raceStats_bounds _).2.1⟩).1
  · exact clamp_bounds _ _ _ (finClampOr_mem _ 0 9999 _ (by norm_num)
      ⟨(raceStats_bounds _).2.2.1, (raceStats_bounds _).2.2.2⟩).1
  · exact nsa_some_length _ 4
  · exact nsa_some_trimmed _ 4
  · show (List.map _ _).length = 4
    rw [List.length_map]
    exact nsa_some_length _ 4
  · intro s hs
    rcases List.mem_map.mp hs with ⟨t, _, rfl⟩
    refine ⟨?_, jsToUpper_idem _⟩
    rw [jsTrim_jsToUpper, jsTrim_idem]
  · exact ⟨abilityBaseEntry_mem _ _, abilityBaseEntry_mem _ _, abilityBaseEntry_mem _ _,
      abilityBaseEntry_mem _ _, abilityBaseEntry_mem _ _, abilityBaseEntry_mem _ _⟩
  · exact nsa_none_good _
  · exact nsa_none_good _
  · exact jNullishElse_null_ne_undef _
  · exact jNullishElse_null_ne_undef _
  · exact ⟨bankEntry_count _ _, bankEntry_count _ _, bankEntry_count _ _, bankEntry_count _ _⟩
  · exact ⟨bankEntry_count _ _, bankEntry_count _ _, bankEntry_count _ _, bankEntry_count _ _⟩

/-! Helper bounds on normalized pool fields. -/

theorem normChar_maxHp_mem (raw : RawCharacter) (fid fcode : String) :
    0 ≤ (normalizeCharacter raw fid fcode).maxHp
      ∧ (normalizeCharacter raw fid fcode).maxHp ≤ 9999 :=
  finClampOr_mem _ 0 9999 _ (by norm_num)
    ⟨(raceStats_bounds _).1, (raceStats_bounds _).2.1⟩

theorem normChar_maxMp_mem (raw : RawCharacter) (fid fcode : String) :
    0 ≤ (normalizeCharacter raw fid fcode).maxMp
      ∧ (normalizeCharacter raw fid fcode).maxMp ≤ 9999 :=
  finClampOr_mem _ 0 9999 _ (by norm_num)
    ⟨(raceStats_bounds _).2.2.1, (raceStats_bounds _).2.2.2⟩

/-- C1: normalizing a character is idempotent — for every raw input,
normalizeCharacter(normalizeCharacter(x)) equals normalizeCharacter(x).
The two string parameters stand for the cryptoRandomId() and
generatePublicCode() calls; the hypotheses on the generated public code are
exactly what the source generator guarantees (12 uppercase hex characters:
non-empty and fixed by trimming and upper-casing). -/
theorem C1_normalizeCharacter_idem (raw : RawCharacter) (fid fid2 fcode fcode2 : String)
    (hcode1 : jsToUpper (jsTrim fcode) = fcode) (hcode2 : fcode ≠ "") :
    normalizeCharacter (charToRaw (normalizeCharacter raw fid fcode)) fid2 fcode2
      = normalizeCharacter raw fid fcode :=
  renorm_self _ (normChar_shape raw fid fcode hcode1 hcode2) fid2 fcode2

/-- A sample raw character document exercising the interesting paths:
untrimmed name, finite pools, a lowercase party code, a fractional bank
count and an unrecognized rank. -/
def rawSample : RawCharacter :=
  { name := .str "  Hero ", maxHp := .num (.fin 120), currentHp := .num (.fin 50),
    rank := .str "platinum", partyMemberCodes := .arr (.cons (.str " ab") .nil),
    knownSpellIds := .arr (.cons (.str " s1 ") (.cons (.str "") .nil)),
    personalBank := .obj (.cons "bronze" (.num (.fin 3)) .nil) }

/-- Witness for C1 at a concrete input. -/
theorem C1_witness :
    (jsToUpper (jsTrim "A1B2C3") = "A1B2C3" ∧ "A1B2C3" ≠ "")
    ∧ normalizeCharacter (charToRaw (normalizeCharacter rawSample "id1" "A1B2C3")) "id2" "ZZZ"
        = normalizeCharacter rawSample "id1" "A1B2C3" :=
  ⟨⟨by decide, by decide⟩,
    C1_normalizeCharacter_idem rawSample "id1" "id2" "A1B2C3" "ZZZ" (by decide) (by decide)⟩

/-- C2: every normalized character satisfies 0 ≤ currentHp ≤ maxHp ≤ 9999,
0 ≤ currentMp ≤ maxMp ≤ 9999, and each of the six base ability scores lies
in [1, 30]. -/
theorem C2_normalizeCharacter_bounds (raw : RawCharacter) (fid fcode : String) :
    (0 ≤ (normalizeCharacter raw fid fcode).currentHp
      ∧ (normalizeCharacter raw fid fcode).currentHp ≤ (normalizeCharacter raw fid fcode).maxHp
      ∧ (normalizeCharacter raw fid fcode).maxHp ≤ 9999)
    ∧ (0 ≤ (normalizeCharacter raw fid fcode).currentMp
      ∧ (normalizeCharacter raw fid fcode).currentMp ≤ (normalizeCharacter raw fid fcode).maxMp
      ∧ (normalizeCharacter raw fid fcode).maxMp ≤ 9999)
    ∧ ((1 ≤ (normalizeCharacter raw fid fcode).abilitiesBase.str
          ∧ (normalizeCharacter raw fid fcode).abilitiesBase.str ≤ 30)
      ∧ (1 ≤ (normalizeCharacter raw fid fcode).abilitiesBase.dex
          ∧ (normalizeCharacter raw fid fcode).abilitiesBase.dex ≤ 30)
      ∧ (1 ≤ (normalizeCharacter raw fid fcode).abilitiesBase.con
          ∧ (normalizeCharacter raw fid fcode).abilitiesBase.con ≤ 30)
      ∧ (1 ≤ (normalizeCharacter raw fid fcode).abilitiesBase.int
          ∧ (normalizeCharacter raw fid fcode).abilitiesBase.int ≤ 30)
      ∧ (1 ≤ (normalizeCharacter raw fid fcode).abilitiesBase.wis
          ∧ (normalizeCharacter raw fid fcode).abilitiesBase.wis ≤ 30)
      ∧ (1 ≤ (normalizeCharacter raw fid fcode).abilitiesBase.cha
          ∧ (normalizeCharacter raw fid fcode).abilitiesBase.cha ≤ 30)) := by
  refine ⟨⟨?_, ?_, (normChar_maxHp_mem raw fid fcode).2⟩,
    ⟨?_, ?_, (normChar_maxMp_mem raw fid fcode).2⟩,
    abilityBaseEntry_mem _ _, abilityBaseEntry_mem _ _, abilityBaseEntry_mem _ _,
    abilityBaseEntry_mem _ _, abilityBaseEntry_mem _ _, abilityBaseEntry_mem _ _⟩
  · exact (clamp_bounds _ _ _ (normChar_maxHp_mem raw fid fcode).1).1
  · exact (clamp_bounds _ _ _ (normChar_maxHp_mem raw fid fcode).1).2
  · exact (clamp_bounds _ _ _ (normChar_maxMp_mem raw fid fcode).1).1
  · exact (clamp_bounds _ _ _ (normChar_maxMp_mem raw fid fcode).1).2

/-- C3: a normalized spell's mpCost is exactly the fixed table value of its
normalized mpTier (None 0, Low 25, Med 50, High 100, Very High 150,
Extreme 200), and the mpCost supplied on input is ignored entirely. -/
theorem C3_normalizeSpell_mpCost (s : RawSpell) (freshId : String) :
    (normalizeSpell s freshId).mpCost = MP_TIER_TO_COST (normalizeSpell s freshId).mpTier
    ∧ (∀ w : JVal, normalizeSpell { s with mpCost := w } freshId = normalizeSpell s freshId)
    ∧ MP_TIER_TO_COST .none = 0 ∧ MP_TIER_TO_COST .low = 25 ∧ MP_TIER_TO_COST .med = 50
    ∧ MP_TIER_TO_COST .high = 100 ∧ MP_TIER_TO_COST .veryHigh = 150
    ∧ MP_TIER_TO_COST .extreme = 200 :=
  ⟨rfl, fun _ => rfl, rfl, rfl, rfl, rfl, rfl, rfl⟩

/-- C8: the ability modifier is floor((score - 10) / 2) with floor toward
negative infinity — it agrees with integer floor division (Int.fdiv) on
every integer score, and in particular takes the values
-5, -1, -1, 0, 0, 5 at scores 1, 8, 9, 10, 11, 20. -/
theorem C8_modFromScore_floor :
    (∀ z : ℤ, modFromScore (z : ℚ) = (((z - 10).fdiv 2 : ℤ) : ℚ))
    ∧ modFromScore 1 = -5 ∧ modFromScore 8 = -1 ∧ modFromScore 9 = -1
    ∧ modFromScore 10 = 0 ∧ modFromScore 11 = 0 ∧ modFromScore 20 = 5 := by
  refine ⟨?_, ?_, ?_, ?_, ?_, ?_, ?_⟩
  · intro z
    unfold modFromScore
    have h : ((z : ℚ) - 10) / 2 = (((z - 10 : ℤ) : ℚ)) / ((2 : ℕ) : ℚ) := by
      push_cast
      ring
    rw [h, Rat.floor_intCast_div_natCast, Int.fdiv_eq_ediv _ (by norm_num)]
    norm_cast
  · norm_num [modFromScore]
  · norm_num [modFromScore]
  · norm_num [modFromScore]
  · norm_num [modFromScore]
  · norm_num [modFromScore]
  · norm_num [modFromScore]

/-- C9: numeric coercion is total and never propagates a non-finite value:
clamp collapses NaN and both infinities to the lower bound, setHp(NaN) and
setMp(NaN) store 0, and normalizeBank maps a non-finite coin count to 0. -/
theorem C9_nonfinite_totality :
    (∀ lo hi : ℚ, clamp .nan lo hi = lo ∧ clamp .inf lo hi = lo ∧ clamp .neginf lo hi = lo)
    ∧ (∀ (ch : Character) (fid fcode : String),
        (setHp ch .nan fid fcode).currentHp = 0 ∧ (setMp ch .nan fid fcode).currentMp = 0)
    ∧ (∀ rest : JObj,
        (normalizeBank (.obj (.cons "bronze" (.num .nan) rest))).bronze = 0
        ∧ (normalizeBank (.obj (.cons "bronze" (.num .inf) rest))).bronze = 0
        ∧ (normalizeBank (.obj (.cons "bronze" (.num .neginf) rest))).bronze = 0) := by
  refine ⟨fun lo hi => ⟨rfl, rfl, rfl⟩, ?_, fun rest => ⟨rfl, rfl, rfl⟩⟩
  intro ch fid fcode
  constructor
  · show clamp (.fin (clamp .nan 0 ch.maxHp)) 0 (clamp (.fin ch.maxHp) 0 9999) = 0
    have hM : (0 : ℚ) ≤ clamp (.fin ch.maxHp) 0 9999 :=
      (clamp_bounds _ _ _ (by norm_num)).1
    show max 0 (min (clamp (.fin ch.maxHp) 0 9999) 0) = 0
    rw [min_eq_right hM, max_self]
  · show clamp (.fin (clamp .nan 0 ch.maxMp)) 0 (clamp (.fin ch.maxMp) 0 9999) = 0
    have hM : (0 : ℚ) ≤ clamp (.fin ch.maxMp) 0 9999 :=
      (clamp_bounds _ _ _ (by norm_num)).1
    show max 0 (min (clamp (.fin ch.maxMp) 0 9999) 0) = 0
    rw [min_eq_right hM, max_self]

/-- C10: when the raw currentHp (resp. currentMp) is missing or not a
finite number, normalizeCharacter defaults it to the normalized maxHp
(resp. maxMp) — the character comes out at full vitals, not at zero. -/
theorem C10_nonfinite_vitals_default (raw : RawCharacter) (fid fcode : String) :
    (jIsFiniteNum raw.currentHp = false →
      (normalizeCharacter raw fid fcode).currentHp = (normalizeCharacter raw fid fcode).maxHp)
    ∧ (jIsFiniteNum raw.currentMp = false →
      (normalizeCharacter raw fid fcode).currentMp = (normalizeCharacter raw fid fcode).maxMp) := by
  constructor
  · intro h
    have step : (normalizeCharacter raw fid fcode).currentHp
        = clamp (.fin (finOrQ raw.currentHp ((normalizeCharacter raw fid fcode).maxHp))) 0
            ((normalizeCharacter raw fid fcode).maxHp) := rfl
    rw [step, finOrQ_nonfin _ _ h]
    exact clamp_of_mem _ _ _ (normChar_maxHp_mem raw fid fcode).1 le_rfl
  · intro h
    have step : (normalizeCharacter raw fid fcode).currentMp
        = clamp (.fin (finOrQ raw.currentMp ((normalizeCharacter raw fid fcode).maxMp))) 0
            ((normalizeCharacter raw fid fcode).maxMp) := rfl
    rw [step, finOrQ_nonfin _ _ h]
    exact clamp_of_mem _ _ _ (normChar_maxMp_mem raw fid fcode).1 le_rfl

/-- A raw character whose current vitals are corrupted: currentHp is NaN
and currentMp is a string (not a finite number under Number.isFinite). -/
def rawNoVitals : RawCharacter :=
  { currentHp := .num .nan, currentMp := .str "broken", maxHp := .num (.fin 120) }

/-- Witness for C10 at a concrete corrupted document. -/
theorem C10_witness :
    (jIsFiniteNum rawNoVitals.currentHp = false ∧ jIsFiniteNum rawNoVitals.currentMp = false)
    ∧ (normalizeCharacter rawNoVitals "i" "C").currentHp
        = (normalizeCharacter rawNoVitals "i" "C").maxHp
    ∧ (normalizeCharacter rawNoVitals "i" "C").currentMp
        = (normalizeCharacter rawNoVitals "i" "C").maxMp :=
  ⟨⟨by decide, by decide⟩,
    (C10_nonfinite_vitals_default rawNoVitals "i" "C").1 (by decide),
    (C10_nonfinite_vitals_default rawNoVitals "i" "C").2 (by decide)⟩

theorem Bank.get_set_same (b : Bank) (k : CoinKey) (v : ℚ) : (b.set k v).get k = v := by
  cases k <;> rfl

theorem Bank.get_set_other (b : Bank) (k k2 : CoinKey) (v : ℚ) (h : k2 ≠ k) :
    (b.set k v).get k2 = b.get k2 := by
  cases k <;> cases k2 <;> first | rfl | exact absurd rfl h

/-- C4: castSpell is a rejected no-op when currentMp < mpCost (the whole
character is returned unchanged); otherwise it subtracts the cost from
currentMp — the clamp at 0 never bites because the guard already ensures
the difference is non-negative, so the result is exactly the difference.
The numeric hypotheses are the invariants every normalized character and
normalized spell satisfy (C2 and C3). -/
theorem C4_castSpell (ch : Character) (spell : Spell) (fid fcode : String)
    (hcur0 : 0 ≤ ch.currentMp) (hcurM : ch.currentMp ≤ ch.maxMp)
    (hmax : ch.maxMp ≤ 9999) (hcost : 0 ≤ spell.mpCost) :
    (ch.currentMp < spell.mpCost → castSpell ch spell fid fcode = ch)
    ∧ (spell.mpCost ≤ ch.currentMp →
        (castSpell ch spell fid fcode).currentMp = max 0 (ch.currentMp - spell.mpCost)
        ∧ (castSpell ch spell fid fcode).currentMp = ch.currentMp - spell.mpCost) := by
  have hsplit : castSpell ch spell fid fcode
      = if ch.currentMp < spell.mpCost then ch
        else normalizeCharacter
          { charToRaw ch with
              currentMp := .num (.fin (clamp (.fin (ch.currentMp - spell.mpCost)) 0 ch.maxMp)) }
          fid fcode := rfl
  constructor
  · intro h
    rw [hsplit, if_pos h]
  · intro h
    have hd0 : 0 ≤ ch.currentMp - spell.mpCost := sub_nonneg.mpr h
    have hdM : ch.currentMp - spell.mpCost ≤ ch.maxMp :=
      le_trans (sub_le_self _ hcost) hcurM
    have hproj : (castSpell ch spell fid fcode).currentMp
        = clamp (.fin (clamp (.fin (ch.currentMp - spell.mpCost)) 0 ch.maxMp)) 0
            (clamp (.fin ch.maxMp) 0 9999) := by
      rw [hsplit, if_neg (not_lt.mpr h)]
      rfl
    rw [hproj, clamp_of_mem _ _ _ hd0 hdM,
      clamp_of_mem _ _ _ (le_trans hcur0 hcurM) hmax,
      clamp_of_mem _ _ _ hd0 hdM]
    exact ⟨(max_eq_right hd0).symm, rfl⟩

/-- A full-MP caster: maxMp 200, currentMp defaults to full (200). -/
def chCaster : Character :=
  normalizeCharacter { maxMp := .num (.fin 200) } "cid" "CODE1"

/-- A Low-tier spell (cost 25). -/
def spellLow : Spell := normalizeSpell { mpTier := .str "Low" } "sid"

/-- A short-on-MP caster: currentMp 40 of maxMp 200. -/
def chPoor : Character :=
  normalizeCharacter { maxMp := .num (.fin 200), currentMp := .num (.fin 40) } "cid" "CODE1"

/-- A Med-tier spell (cost 50). -/
def spellMed : Spell := normalizeSpell { mpTier := .str "Med" } "sid"

/-- Witness for C4: a successful cast subtracts the cost, and the spec
scenario (cost 50 against currentMp 40) is a rejected no-op. -/
theorem C4_witness :
    ((0 ≤ chCaster.currentMp ∧ chCaster.currentMp ≤ chCaster.maxMp ∧ chCaster.maxMp ≤ 9999
        ∧ 0 ≤ spellLow.mpCost ∧ spellLow.mpCost ≤ chCaster.currentMp)
      ∧ (castSpell chCaster spellLow "f" "C").currentMp
          = chCaster.currentMp - spellLow.mpCost)
    ∧ (chPoor.currentMp < spellMed.mpCost ∧ castSpell chPoor spellMed "f" "C" = chPoor) :=
  ⟨⟨⟨by decide, by decide, by decide, by decide, by decide⟩,
      ((C4_castSpell chCaster spellLow "f" "C" (by decide) (by decide) (by decide)
          (by decide)).2 (by decide)).2⟩,
    ⟨by decide,
      (C4_castSpell chPoor spellMed "f" "C" (by decide) (by decide) (by decide)
          (by decide)).1 (by decide)⟩⟩

/-- C5: consuming a coin for MP restoration is rejected outright (the whole
character unchanged) when the selected coin count is 0; otherwise it
decrements exactly that coin by 1, leaves the other coins unchanged, and
sets currentMp to maxMp, all in the same single update.  The hypotheses are
the bank and pool invariants every normalized character satisfies. -/
theorem C5_confirmEatCoin (ch : Character) (coin : CoinKey) (fid fcode : String)
    (hbank : ∀ k : CoinKey, 0 ≤ ch.personalBank.get k
      ∧ ((⌊ch.personalBank.get k⌋ : ℤ) : ℚ) = ch.personalBank.get k)
    (hmp0 : 0 ≤ ch.maxMp) (hmp9 : ch.maxMp ≤ 9999) :
    (ch.personalBank.get coin = 0 → confirmEatCoin ch coin fid fcode = ch)
    ∧ (0 < ch.personalBank.get coin →
        (confirmEatCoin ch coin fid fcode).personalBank.get coin
            = ch.personalBank.get coin - 1
        ∧ (∀ k : CoinKey, k ≠ coin →
            (confirmEatCoin ch coin fid fcode).personalBank.get k = ch.personalBank.get k)
        ∧ (confirmEatCoin ch coin fid fcode).currentMp = ch.maxMp) := by
  have hsplit : confirmEatCoin ch coin fid fcode
      = if ch.personalBank.get coin ≤ 0 then ch
        else normalizeCharacter
          { charToRaw ch with
              personalBank := .obj (bankToJObj
                (ch.personalBank.set coin (ch.personalBank.get coin - 1)))
              currentMp := .num (.fin ch.maxMp) } fid fcode := rfl
  constructor
  · intro h
    rw [hsplit, if_pos (le_of_eq h)]
  · intro h
    have hupd : ∀ k : CoinKey,
        0 ≤ (ch.personalBank.set coin (ch.personalBank.get coin - 1)).get k
        ∧ ((⌊(ch.personalBank.set coin (ch.personalBank.get coin - 1)).get k⌋ : ℤ) : ℚ)
            = (ch.personalBank.set coin (ch.personalBank.get coin - 1)).get k := by
      intro k
      by_cases hk : k = coin
      · subst hk
        rw [Bank.get_set_same]
        have h2 := (hbank k).2
        have hone : 1 ≤ ch.personalBank.get k := by
          have h3 : 0 < ((⌊ch.personalBank.get k⌋ : ℤ) : ℚ) := by rw [h2]; exact h
          have h4 : (1 : ℤ) ≤ ⌊ch.personalBank.get k⌋ := by exact_mod_cast h3
          calc (1 : ℚ) ≤ ((⌊ch.personalBank.get k⌋ : ℤ) : ℚ) := by exact_mod_cast h4
            _ = ch.personalBank.get k := h2
        refine ⟨by linarith, ?_⟩
        have h5 : ⌊ch.personalBank.get k - 1⌋ = ⌊ch.personalBank.get k⌋ - 1 := by
          exact_mod_cast Int.floor_sub_int (ch.personalBank.get k) 1
        rw [h5]
        push_cast
        rw [h2]
      · rw [Bank.get_set_other _ _ _ _ hk]
        exact hbank k
    have hne := not_le.mpr h
    have hpb : (confirmEatCoin ch coin fid fcode).personalBank
        = ch.personalBank.set coin (ch.personalBank.get coin - 1) := by
      have hraw : (confirmEatCoin ch coin fid fcode).personalBank
          = normalizeBank (.obj (bankToJObj
              (ch.personalBank.set coin (ch.personalBank.get coin - 1)))) := by
        rw [hsplit, if_neg hne]
        rfl
      rw [hraw]
      exact bank_round _ (hupd .bronze) (hupd .silver) (hupd .gold) (hupd .diamond)
    refine ⟨?_, ?_, ?_⟩
    · rw [hpb, Bank.get_set_same]
    · intro k hk
      rw [hpb, Bank.get_set_other _ _ _ _ hk]
    · have hcm : (confirmEatCoin ch coin fid fcode).currentMp
          = clamp (.fin ch.maxMp) 0 (clamp (.fin ch.maxMp) 0 9999) := by
        rw [hsplit, if_neg hne]
        rfl
      rw [hcm, clamp_of_mem _ _ _ hmp0 hmp9]
      exact clamp_of_mem _ _ _ hmp0 le_rfl

/-- The spec scenario character: personalBank bronze 2 (rest 0), maxMp 200,
currentMp full. -/
def chBanker : Character :=
  normalizeCharacter
    { maxMp := .num (.fin 200),
      personalBank := .obj (.cons "bronze" (.num (.fin 2)) .nil) } "cid" "CODE2"

/-- Witness for C5: eating a bronze coin decrements bronze by one and
restores MP to max; eating silver at balance 0 is a no-op. -/
theorem C5_witness :
    ((∀ k : CoinKey, 0 ≤ chBanker.personalBank.get k
        ∧ ((⌊chBanker.personalBank.get k⌋ : ℤ) : ℚ) = chBanker.personalBank.get k)
      ∧ 0 ≤ chBanker.maxMp ∧ chBanker.maxMp ≤ 9999 ∧ 0 < chBanker.personalBank.get .bronze
      ∧ chBanker.personalBank.get .silver = 0)
    ∧ (confirmEatCoin chBanker .bronze "f" "C").personalBank.get .bronze
        = chBanker.personalBank.get .bronze - 1
    ∧ (confirmEatCoin chBanker .bronze "f" "C").currentMp = chBanker.maxMp
    ∧ confirmEatCoin chBanker .silver "f" "C" = chBanker :=
  ⟨⟨fun k => by cases k <;> exact ⟨by decide, by decide⟩,
      by decide, by decide, by decide, by decide⟩,
    ((C5_confirmEatCoin chBanker .bronze "f" "C"
        (fun k => by cases k <;> exact ⟨by decide, by decide⟩)
        (by decide) (by decide)).2 (by decide)).1,
    ((C5_confirmEatCoin chBanker .bronze "f" "C"
        (fun k => by cases k <;> exact ⟨by decide, by decide⟩)
        (by decide) (by decide)).2 (by decide)).2.2,
    (C5_confirmEatCoin chBanker .silver "f" "C"
        (fun k => by cases k <;> exact ⟨by decide, by decide⟩)
        (by decide) (by decide)).1 (by decide)⟩

/-- A raw character whose first party-member code contains a dash and
leading whitespace. -/
def rawDashCode : RawCharacter :=
  { partyMemberCodes := .arr (.cons (.str " ab-c") .nil) }

/-- Counterexample to C6 as stated: normalizeCharacter only trims and
upper-cases partyMemberCodes slots — it does not strip non-alphanumeric
characters (nor cap length at 16), so the slot comes out "AB-C", which is
not uppercase-alphanumeric-only. -/
theorem C6_counterexample :
    (normalizeCharacter rawDashCode "i" "C").partyMemberCodes = ["AB-C", "", "", ""]
    ∧ ¬ (∀ s ∈ (normalizeCharacter rawDashCode "i" "C").partyMemberCodes,
          ∀ c ∈ s.data, isUpperAlnumChar c = true) := by
  constructor
  · decide
  · decide

/-- C6 amended: the partyMemberCodes field of a normalized character is
exactly 4 slots, each trimmed and upper-cased (but not filtered to
alphanumeric or capped at 16 — that stricter normalization is performed
only by normalizePublicCode on the roster-edit write path, which does
produce uppercase-alphanumeric strings of at most 16 characters). -/
theorem C6_partyMemberCodes_amended (raw : RawCharacter) (fid fcode : String) :
    ((normalizeCharacter raw fid fcode).partyMemberCodes.length = 4
      ∧ ∀ s ∈ (normalizeCharacter raw fid fcode).partyMemberCodes,
          jsTrim s = s ∧ jsToUpper s = s)
    ∧ (∀ v : JVal, (∀ c ∈ (normalizePublicCode v).data, isUpperAlnumChar c = true)
        ∧ (normalizePublicCode v).length ≤ 16) := by
  refine ⟨⟨?_, ?_⟩, ?_⟩
  · show (List.map _ _).length = 4
    rw [List.length_map]
    exact nsa_some_length _ 4
  · intro s hs
    rcases List.mem_map.mp hs with ⟨t, _, rfl⟩
    refine ⟨?_, jsToUpper_idem _⟩
    rw [jsTrim_jsToUpper, jsTrim_idem]
  · intro v
    constructor
    · intro c hc
      have hc2 : c ∈ (jsToUpper (jsTrim (jToString (jNullishElse v
          (.str ""))))).data.filter (fun x => isUpperAlnumChar x) :=
        List.mem_of_mem_take hc
      exact (List.mem_filter.mp hc2).2
    · show ((((jsToUpper (jsTrim (jToString (jNullishElse v
          (.str ""))))).data.filter (fun x => isUpperAlnumChar x)).take 16)).length ≤ 16
      rw [List.length_take]
      exact min_le_left _ _

/-- A raw armor with a fractional acBonus, a fractional strength bonus and
a string-typed dexterity bonus. -/
def rawFracArmor : RawArmor :=
  { acBonus := .num (.fin (5 / 2)),
    abilityBonuses := .obj (.cons "str" (.num (.fin (5 / 2)))
      (.cons "dex" (.str "7") .nil)) }

/-- Counterexample to C7 as stated: normalizeArmor keeps any finite
Number-coerced value without rounding, so acBonus can be the non-integer
5/2; the retained str bonus is likewise the non-integer 5/2; and the dex
entry is retained although the supplied value is the string "7", not a
number. -/
theorem C7_counterexample :
    (normalizeArmor rawFracArmor "i").acBonus = 5 / 2
    ∧ ¬ (∃ z : ℤ, (normalizeArmor rawFracArmor "i").acBonus = (z : ℚ))
    ∧ (normalizeArmor rawFracArmor "i").abilityBonuses.str = some (5 / 2)
    ∧ (normalizeArmor rawFracArmor "i").abilityBonuses.dex = some 7
    ∧ objGet rawFracArmor.abilityBonuses "dex" = .str "7" := by
  have hac : (normalizeArmor rawFracArmor "i").acBonus = 5 / 2 := rfl
  refine ⟨hac, ?_, ?_, ?_, rfl⟩
  · rintro ⟨z, hz⟩
    rw [hac, div_eq_iff (by norm_num : (2 : ℚ) ≠ 0)] at hz
    have h3 : (5 : ℤ) = z * 2 := by exact_mod_cast hz
    omega
  · have hv : jsToNumber (objGet rawFracArmor.abilityBonuses "str") = .fin (5 / 2) := rfl
    show abilityBonusEntry rawFracArmor.abilityBonuses "str" = some (5 / 2)
    unfold abilityBonusEntry
    rw [hv]
    show (if (5 / 2 : ℚ) ≠ 0 then some ((5 : ℚ) / 2) else Option.none) = some (5 / 2)
    rw [if_pos (by norm_num : (5 / 2 : ℚ) ≠ 0)]
  · decide

/-- C7 amended: normalizeArmor coerces acBonus with JavaScript Number and
keeps the coerced value whenever it is finite (else 0) — without any
integer rounding; and the abilityBonuses map has an entry for a key
exactly when the Number-coercion of the input at that key is finite and
nonzero, the retained entry being that coerced nonzero value (zero and
non-coercible entries omitted; the value need not be an integer). -/
theorem C7_normalizeArmor_amended (a : RawArmor) (freshId : String) :
    ((∀ q : ℚ, jsToNumber a.acBonus = .fin q → (normalizeArmor a freshId).acBonus = q)
      ∧ ((∀ q : ℚ, jsToNumber a.acBonus ≠ .fin q) → (normalizeArmor a freshId).acBonus = 0))
    ∧ (∀ q : ℚ, ((normalizeArmor a freshId).abilityBonuses.str = some q
        ↔ (jsToNumber (objGet a.abilityBonuses "str") = .fin q ∧ q ≠ 0)))
    ∧ (∀ q : ℚ, ((normalizeArmor a freshId).abilityBonuses.dex = some q
        ↔ (jsToNumber (objGet a.abilityBonuses "dex") = .fin q ∧ q ≠ 0)))
    ∧ (∀ q : ℚ, ((normalizeArmor a freshId).abilityBonuses.con = some q
        ↔ (jsToNumber (objGet a.abilityBonuses "con") = .fin q ∧ q ≠ 0)))
    ∧ (∀ q : ℚ, ((normalizeArmor a freshId).abilityBonuses.int = some q
        ↔ (jsToNumber (objGet a.abilityBonuses "int") = .fin q ∧ q ≠ 0)))
    ∧ (∀ q : ℚ, ((normalizeArmor a freshId).abilityBonuses.wis = some q
        ↔ (jsToNumber (objGet a.abilityBonuses "wis") = .fin q ∧ q ≠ 0)))
    ∧ (∀ q : ℚ, ((normalizeArmor a freshId).abilityBonuses.cha = some q
        ↔ (jsToNumber (objGet a.abilityBonuses "cha") = .fin q ∧ q ≠ 0))) := by
  have hentry : ∀ (b : JVal) (key : String) (q : ℚ),
      abilityBonusEntry b key = some q
        ↔ (jsToNumber (objGet b key) = .fin q ∧ q ≠ 0) := by
    intro b key q
    unfold abilityBonusEntry
    cases hv : jsToNumber (objGet b key) with
    | fin p =>
      show (if p ≠ 0 then some p else Option.none) = some q
        ↔ (JNum.fin p = JNum.fin q ∧ q ≠ 0)
      by_cases hp : p ≠ 0
      · rw [if_pos hp]
        constructor
        · intro hsome
          have hpq := Option.some_inj.mp hsome
          subst hpq
          exact ⟨rfl, hp⟩
        · rintro ⟨he, _⟩
          rw [JNum.fin.injEq] at he
          rw [he]
      · rw [if_neg hp]
        push_neg at hp
        constructor
        · intro hnone
          exact Option.noConfusion hnone
        · rintro ⟨he, hq⟩
          rw [JNum.fin.injEq] at he
          exact absurd (he ▸ hp) hq
    | nan =>
      show (Option.none : Option ℚ) = some q ↔ (JNum.nan = JNum.fin q ∧ q ≠ 0)
      simp
    | inf =>
      show (Option.none : Option ℚ) = some q ↔ (JNum.inf = JNum.fin q ∧ q ≠ 0)
      simp
    | neginf =>
      show (Option.none : Option ℚ) = some q ↔ (JNum.neginf = JNum.fin q ∧ q ≠ 0)
      simp
  refine ⟨⟨?_, ?_⟩, fun q => hentry _ "str" q, fun q => hentry _ "dex" q,
    fun q => hentry _ "con" q, fun q => hentry _ "int" q,
    fun q => hentry _ "wis" q, fun q => hentry _ "cha" q⟩
  · intro q hq
    show ((match jsToNumber a.acBonus with | JNum.fin p => p | _ => 0 : ℚ)) = q
    rw [hq]
  · intro hq
    show ((match jsToNumber a.acBonus with | JNum.fin p => p | _ => 0 : ℚ)) = 0
    cases hv : jsToNumber a.acBonus with
    | fin p => exact absurd hv (hq p)
    | nan => rfl
    | inf => rfl
    | neginf => rfl

/-- Witness for the amended C7 at the concrete fractional armor. -/
theorem C7_witness :
    (normalizeArmor rawFracArmor "i").acBonus = 5 / 2
      ∧ (normalizeArmor rawFracArmor "i").abilityBonuses.dex = some 7 :=
  ⟨(C7_normalizeArmor_amended rawFracArmor "i").1.1 (5 / 2) rfl,
    ((C7_normalizeArmor_amended rawFracArmor "i").2.2.1 7).mpr ⟨rfl, by norm_num⟩⟩

end BrewStation
